import Mathlib

/-!
Verification of the pgdb migration engine (migrations.go, sort.go, postgres.go).

The Go code is shallowly embedded: the persisted `db_version` row is the
`Migration` record it is read back into; database effects (the two `UPDATE`
statements of a migration step and the execution of a SQL file) are modelled
by explicit state passing over that row plus an `Oracle` that decides which
external operations fail; every attempted database operation is recorded in
an event trace so that "never attempted" properties are statable.
-/

namespace Pgdb

/-- The `Migration` struct of migrations.go.  `Version` is a Go `uint64`,
modelled as a `Nat` (values produced by discovery are reduced mod 2^64 at the
`uint64(version)` conversion); `LastRun` is a `time.Time`, modelled as a `Nat`
timestamp. -/
structure Migration where
  ID : String
  File : String
  Hash : String
  Version : Nat
  Complete : Bool
  LastRun : Nat
deriving DecidableEq, Repr

/-- The `MigrationStatus` struct of migrations.go (all fields `uint64`; the
counters each grow by at most one per input migration, so they cannot wrap
and are faithfully `Nat`). -/
structure MigrationStatus where
  Applied : Nat
  Failed : Nat
  Skipped : Nat
  Latest : Nat
deriving DecidableEq, Repr

/-- One filesystem object seen by `filepath.Walk` in `DiffMigrations`:
its full path, its base name (`info.Name()`), whether it is a directory,
and its content (the bytes `ioutil.ReadFile` would return). -/
structure FSEntry where
  path : String
  name : String
  isDir : Bool
  content : String
deriving DecidableEq, Repr

/-- Errors produced by `GetCurrentMigration` / `DiffMigrations`:
`noRows` is `sql.ErrNoRows` passed through unchanged; `unresolved` is the
"migration %d in file %s appears to have failed" error; `parseError` is the
`strconv.ParseInt` failure on a filename stem; `driftMismatch` is the
"latest hash mismatch" error. -/
inductive DBError where
  | noRows
  | unresolved (version : Nat) (file : String)
  | parseError (stem : String)
  | driftMismatch
deriving DecidableEq, Repr

/-- Errors returned by `RunMigrations`, one per failing phase of a step. -/
inductive RunErr where
  | beginFailed
  | execFailed
  | completeFailed
deriving DecidableEq, Repr

/-- Database operations attempted by `RunMigrations`, in order:
the `BeginStep` UPDATE, the execution of the migration's SQL file, and the
`CompleteStep` UPDATE. -/
inductive Event where
  | beginStep (version : Nat) (hash file : String) (now : Nat)
  | execFile (file : String)
  | completeStep (version : Nat)
deriving DecidableEq, Repr

/-- Environment model: which external database operations fail.  Keyed by the
migration (respectively file) being processed, so that one oracle describes
the same environment across differently ordered invocations. -/
structure Oracle where
  beginFails : Migration → Bool
  execFails : String → Bool
  completeFails : Migration → Bool

/-- Parse a nonempty all-digit string in base 10 (the digit part of Go's
`strconv.ParseInt(s, 10, 64)`). -/
def parseDigits : List Char → Nat → Option Nat
  | [], acc => some acc
  | c :: cs, acc =>
    if c.isDigit then parseDigits cs (acc * 10 + (c.toNat - 48)) else none

/-- Go `strconv.ParseInt(s, 10, 64)`: optional single leading sign, then a
nonempty run of decimal digits, with the result required to fit in a signed
64-bit integer. `none` models a non-nil error. -/
def parseInt10 (s : String) : Option Int :=
  match s.toList with
  | [] => none
  | '+' :: cs =>
    match cs, parseDigits cs 0 with
    | _ :: _, some n => if n ≤ 2 ^ 63 - 1 then some (n : Int) else none
    | _, _ => none
  | '-' :: cs =>
    match cs, parseDigits cs 0 with
    | _ :: _, some n => if n ≤ 2 ^ 63 then some (-(n : Int)) else none
    | _, _ => none
  | cs =>
    match parseDigits cs 0 with
    | some n => if n ≤ 2 ^ 63 - 1 then some (n : Int) else none
    | none => none

/-- Go's `uint64(v)` conversion of a signed 64-bit value: two's-complement
reduction modulo 2^64. -/
def toUint64 (v : Int) : Nat :=
  (v % (2 ^ 64 : Int)).toNat

/-- Replace every non-overlapping occurrence of `pat` (nonempty), left to
right, by the empty string; fuelled recursion, the fuel is at least the
length of the input. This is `strings.Replace(s, pat, "", -1)`. -/
def replaceAllAux (pat : List Char) : List Char → Nat → List Char
  | _, 0 => []
  | [], _ => []
  | c :: cs, fuel + 1 =>
    if pat.isPrefixOf (c :: cs) then
      replaceAllAux pat ((c :: cs).drop pat.length) fuel
    else
      c :: replaceAllAux pat cs fuel

/-- Go `strings.Replace(s, pat, "", -1)` for a nonempty pattern. -/
def replaceAll (s pat : String) : String :=
  String.mk (replaceAllAux pat.toList s.toList (s.toList.length + 1))

/-- The base name of a slash-separated path: the characters after the last
slash (the whole path when it has no slash). -/
def baseName (cs : List Char) : List Char :=
  cs.foldl (fun acc c => if c = '/' then [] else acc ++ [c]) []

/-- Go `filepath.Ext(path)`: the suffix of the base name starting at its
last dot, or the empty string when the base name has no dot. -/
def pathExt (path : String) : String :=
  match (baseName path.toList).foldl
      (fun acc c =>
        if c = '.' then some ['.']
        else match acc with
          | none => none
          | some l => some (l ++ [c])) none with
  | none => ""
  | some l => String.mk l

/-- The string `DiffMigrations` hands to `strconv.ParseInt`:
`strings.Replace(info.Name(), ".sql", "", -1)`. -/
def stemOf (e : FSEntry) : String :=
  replaceAll e.name ".sql"

/-- The body of `GetCurrentMigration`: read the single `db_version` row
(`tx.Get` on `SELECT * FROM db_version WHERE id = '1' LIMIT 1`); a missing
row is `sql.ErrNoRows`, returned unchanged. -/
def getCurrentMigration (table : Option Migration) : Except DBError Migration :=
  match table with
  | none => .error .noRows
  | some m => .ok m

/-- The row `Dial` inserts on a fresh database:
`('1', 0, '', '', NOW(), true)`. -/
def bootRow (now : Nat) : Migration :=
  { ID := "1", File := "", Hash := "", Version := 0, Complete := true, LastRun := now }

/-- The bootstrap tail of `Dial` (postgres.go lines 84-101): call
`GetCurrentMigration`; on `sql.ErrNoRows` insert the bootstrap row, on any
other error fail, otherwise leave the table unchanged. -/
def dialBootstrap (now : Nat) (table : Option Migration) :
    Except DBError (Option Migration) :=
  match getCurrentMigration table with
  | .error .noRows => .ok (some (bootRow now))
  | .error e => .error e
  | .ok _ => .ok table

/-- The candidate `Migration` literal built by the walk callback of
`DiffMigrations` for a file whose stem parsed to `v`:
`Version = uint64(version)`, `Hash = md5(content)` (the digest function is a
parameter `hash`), `Complete = uint64(version) <= currentMigration.Version`;
`ID` and `LastRun` keep their Go zero values. -/
def candidate (hash : String → String) (cur : Migration) (e : FSEntry)
    (v : Int) : Migration :=
  { ID := "", File := e.path, Hash := hash e.content,
    Version := toUint64 v,
    Complete := decide (toUint64 v ≤ cur.Version), LastRun := 0 }

/-- The walk callback of `DiffMigrations` on one filesystem entry:
skip directories and non-`.sql` extensions, parse the stem with
`strconv.ParseInt(_, 10, 64)`, build the candidate, then apply the drift
check. `ok none` means the entry was silently skipped. -/
def walkStep (hash : String → String) (cur : Migration) (e : FSEntry) :
    Except DBError (Option Migration) :=
  if e.isDir then .ok none
  else if pathExt e.path ≠ ".sql" then .ok none
  else
    match parseInt10 (stemOf e) with
    | none => .error (.parseError (stemOf e))
    | some v =>
      let m := candidate hash cur e v
      if m.Version = cur.Version ∧ m.Hash ≠ cur.Hash then .error .driftMismatch
      else .ok (some m)

/-- The whole `filepath.Walk` of `DiffMigrations` over the entries in walk
order: accepted candidates are appended in order; on the first failing entry
the walk stops and the candidates accepted so far are returned together with
the error (Go returns the partially filled `migrations` slice alongside
`err`). -/
def walkList (hash : String → String) (cur : Migration) :
    List FSEntry → List Migration × Option DBError
  | [] => ([], none)
  | e :: rest =>
    match walkStep hash cur e with
    | .error err => ([], some err)
    | .ok none => walkList hash cur rest
    | .ok (some m) =>
      let r := walkList hash cur rest
      (m :: r.1, r.2)

/-- `DiffMigrations` after `GetCurrentMigration` has produced `cur`
(migrations.go lines 61-108): fail with the unresolved error before any
discovery when `cur.Complete` is false, otherwise walk the directory. -/
def diffMigrationsFrom (hash : String → String) (cur : Migration)
    (entries : List FSEntry) : List Migration × Option DBError :=
  if cur.Complete = false then ([], some (.unresolved cur.Version cur.File))
  else walkList hash cur entries

/-- `DiffMigrations` (migrations.go lines 55-109): read the current row,
propagate its error, then diff the discovered entries against it. -/
def diffMigrations (hash : String → String) (table : Option Migration)
    (entries : List FSEntry) : List Migration × Option DBError :=
  match getCurrentMigration table with
  | .error e => ([], some e)
  | .ok cur => diffMigrationsFrom hash cur entries

/-- `sort.Sort(MigrationSet(migrations))`: sort by the `Less` method
`s[i].Version < s[j].Version`, i.e. into nondecreasing `Version` order
(Go's sort is unstable, so ties are resolved arbitrarily there; any
`Version`-nondecreasing sort models it, and the claims about order are made
under distinct versions, where the result is unique). -/
def sortMigrations (l : List Migration) : List Migration :=
  List.insertionSort (fun a b => a.Version ≤ b.Version) l

/-- Effect of the committed `BeginStep` UPDATE
(`UPDATE db_version SET version, hash, file, last_run, complete=false
WHERE id = '1'`) on the single row. -/
def beginStepRow (row m : Migration) (now : Nat) : Migration :=
  { row with Version := m.Version, Hash := m.Hash, File := m.File,
             LastRun := now, Complete := false }

/-- Effect of the `CompleteStep` UPDATE
(`UPDATE db_version SET complete = true WHERE id = '1' AND version = $2`):
the updated row together with the number of rows the WHERE clause matched
(the `sql.Result` the Go code discards with `_`). -/
def completeStepExec (row : Migration) (v : Nat) : Migration × Nat :=
  if row.Version = v then ({ row with Complete := true }, 1) else (row, 0)

/-- The `CompleteStep` transaction of `RunMigrations` (lines 148-151): the
returned error is exactly the UPDATE's execution error; a zero-row match is
not an execution error, so the row count never influences the result. -/
def completeStep (ora : Oracle) (m : Migration) (row : Migration) :
    Except RunErr Migration :=
  if ora.completeFails m then .error .completeFailed
  else .ok (completeStepExec row m.Version).1

/-- The loop of `RunMigrations` (lines 117-163) over the already-sorted
list, threading the status, the persisted row and the trace of attempted
database operations; the fourth component is the returned error. -/
def runLoop (ora : Oracle) (now : Nat) :
    List Migration → MigrationStatus → Migration → List Event →
    MigrationStatus × Migration × List Event × Option RunErr
  | [], st, row, tr => (st, row, tr, none)
  | m :: rest, st, row, tr =>
    if m.Complete then
      runLoop ora now rest { st with Skipped := st.Skipped + 1 } row tr
    else
      let tr1 := tr ++ [Event.beginStep m.Version m.Hash m.File now]
      if ora.beginFails m then
        ({ st with Failed := st.Failed + 1 }, row, tr1, some RunErr.beginFailed)
      else
        let row1 := beginStepRow row m now
        let tr2 := tr1 ++ [Event.execFile m.File]
        if ora.execFails m.File then
          ({ st with Failed := st.Failed + 1 }, row1, tr2, some RunErr.execFailed)
        else
          let tr3 := tr2 ++ [Event.completeStep m.Version]
          match completeStep ora m row1 with
          | .error e => ({ st with Failed := st.Failed + 1 }, row1, tr3, some e)
          | .ok row2 =>
            runLoop ora now rest
              { st with Applied := st.Applied + 1, Latest := m.Version } row2 tr3

/-- `RunMigrations` (lines 111-166): sort the input, start the status at
`Latest = currentMigration.Version`, run the loop against the persisted row
`row`. -/
def runMigrations (ora : Oracle) (now : Nat) (row currentMigration : Migration)
    (migrations : List Migration) :
    MigrationStatus × Migration × List Event × Option RunErr :=
  runLoop ora now (sortMigrations migrations)
    { Applied := 0, Failed := 0, Skipped := 0, Latest := currentMigration.Version }
    row []

/-- The `Version` comparison of `MigrationSet.Less` is total. -/
instance : IsTotal Migration (fun a b => a.Version ≤ b.Version) :=
  ⟨fun a b => Nat.le_total a.Version b.Version⟩

/-- The `Version` comparison of `MigrationSet.Less` is transitive. -/
instance : IsTrans Migration (fun a b => a.Version ≤ b.Version) :=
  ⟨fun _ _ _ h h2 => Nat.le_trans h h2⟩

/-- Strict `Version` order is (vacuously) antisymmetric. -/
instance : IsAntisymm Migration (fun a b => a.Version < b.Version) :=
  ⟨fun _ _ h h2 => absurd h2 (Nat.lt_asymm h)⟩

/-- An environment in which every database operation succeeds. -/
def oraOK : Oracle :=
  { beginFails := fun _ => false, execFails := fun _ => false,
    completeFails := fun _ => false }

/-- Sample pending migrations used to instantiate the general theorems. -/
def wm1 : Migration :=
  { ID := "", File := "1.sql", Hash := "h1", Version := 1, Complete := false, LastRun := 0 }

/-- Second sample pending migration. -/
def wm2 : Migration :=
  { ID := "", File := "2.sql", Hash := "h2", Version := 2, Complete := false, LastRun := 0 }

/-- Third sample pending migration. -/
def wm3 : Migration :=
  { ID := "", File := "3.sql", Hash := "h3", Version := 3, Complete := false, LastRun := 0 }

/-- An environment in which only the SQL file of `wm2` fails to execute. -/
def oraFail2 : Oracle :=
  { beginFails := fun _ => false, execFails := fun f => decide (f = "2.sql"),
    completeFails := fun _ => false }

/-- A persisted row at version 1 whose hash matches the sample file `1.sql`. -/
def sampleCur : Migration :=
  { ID := "1", File := "1.sql", Hash := "c1", Version := 1, Complete := true, LastRun := 0 }

/-- Sample discovered file `1.sql` (hash function `id`, so its digest is its
content `c1`). -/
def sampleE1 : FSEntry :=
  { path := "1.sql", name := "1.sql", isDir := false, content := "c1" }

/-- Sample discovered file `2.sql`. -/
def sampleE2 : FSEntry :=
  { path := "2.sql", name := "2.sql", isDir := false, content := "c2" }

/-- The candidate list the sample directory diffs to against `sampleCur`. -/
def msW : List Migration :=
  [{ ID := "", File := "1.sql", Hash := "c1", Version := 1, Complete := true, LastRun := 0 },
   { ID := "", File := "2.sql", Hash := "c2", Version := 2, Complete := false, LastRun := 0 }]

/-- The persisted row after cleanly running the sample pending migration
`2.sql` at time 0. -/
def row1W : Migration :=
  { ID := "1", File := "2.sql", Hash := "c2", Version := 2, Complete := true, LastRun := 0 }

/-- A walk step that accepts a candidate did so from a non-directory `.sql`
entry whose stem parsed, and the candidate passed the drift check. -/
theorem walkStep_ok_some (hash : String → String) (cur : Migration) (e : FSEntry)
    (m : Migration) (h : walkStep hash cur e = .ok (some m)) :
    e.isDir = false ∧ pathExt e.path = ".sql" ∧
    ∃ v, parseInt10 (stemOf e) = some v ∧ m = candidate hash cur e v ∧
      ¬(m.Version = cur.Version ∧ m.Hash ≠ cur.Hash) := by
  by_cases hd : e.isDir
  · simp [walkStep, hd] at h
  · by_cases hx : pathExt e.path = ".sql"
    · rcases hp : parseInt10 (stemOf e) with _ | v
      · simp [walkStep, hd, hx, hp] at h
      · by_cases hdrift : (candidate hash cur e v).Version = cur.Version ∧
            (candidate hash cur e v).Hash ≠ cur.Hash
        · simp [walkStep, hd, hx, hp, hdrift] at h
        · simp [walkStep, hd, hx, hp, hdrift] at h
          refine ⟨by simp [hd], hx, v, rfl, h.symm, ?_⟩
          rw [← h]
          exact hdrift
    · simp [walkStep, hd, hx] at h

/-- A silently skipped entry is skipped for every current row. -/
theorem walkStep_ok_none (hash : String → String) (cur cur' : Migration)
    (e : FSEntry) (h : walkStep hash cur e = .ok none) :
    walkStep hash cur' e = .ok none := by
  by_cases hd : e.isDir
  · simp [walkStep, hd]
  · by_cases hx : pathExt e.path = ".sql"
    · rcases hp : parseInt10 (stemOf e) with _ | v
      · simp [walkStep, hd, hx, hp] at h
      · by_cases hdrift : (candidate hash cur e v).Version = cur.Version ∧
            (candidate hash cur e v).Hash ≠ cur.Hash
        · simp [walkStep, hd, hx, hp, hdrift] at h
        · simp [walkStep, hd, hx, hp, hdrift] at h
    · simp [walkStep, hd, hx]

/-- A malformed stem on a discovered `.sql` file is a fatal parse error. -/
theorem walkStep_parse_error (hash : String → String) (cur : Migration)
    (e : FSEntry) (hd : e.isDir = false) (hx : pathExt e.path = ".sql")
    (hp : parseInt10 (stemOf e) = none) :
    walkStep hash cur e = .error (.parseError (stemOf e)) := by
  simp [walkStep, hd, hx, hp]

/-- A discovered candidate at the persisted version with a differing hash is
a fatal drift error. -/
theorem walkStep_drift (hash : String → String) (cur : Migration) (e : FSEntry)
    (v : Int) (hd : e.isDir = false) (hx : pathExt e.path = ".sql")
    (hp : parseInt10 (stemOf e) = some v) (hv : toUint64 v = cur.Version)
    (hh : hash e.content ≠ cur.Hash) :
    walkStep hash cur e = .error .driftMismatch := by
  simp [walkStep, hd, hx, hp, candidate, hv, hh]

/-- Every migration accepted by the walk was discovered from a `.sql` file
through `candidate`, and passed the drift check. -/
theorem walkList_mem (hash : String → String) (cur : Migration) :
    ∀ (entries : List FSEntry) (ms : List Migration) (err : Option DBError),
    walkList hash cur entries = (ms, err) → ∀ m ∈ ms,
    (∃ e ∈ entries, e.isDir = false ∧ pathExt e.path = ".sql" ∧
      ∃ v, parseInt10 (stemOf e) = some v ∧ m = candidate hash cur e v) ∧
    (m.Version = cur.Version → m.Hash = cur.Hash) := by
  intro entries
  induction entries with
  | nil =>
    intro ms err h m hm
    rw [walkList] at h
    injection h with h1 h2
    rw [← h1] at hm
    simp at hm
  | cons e rest ih =>
    intro ms err h m hm
    rcases hstep : walkStep hash cur e with herr | o
    · rw [walkList, hstep] at h
      simp at h
      rw [h.1] at hm
      simp at hm
    · cases o with
      | none =>
        rw [walkList, hstep] at h
        simp at h
        rcases ih ms err h m hm with ⟨⟨e', he', rest'⟩, hdrift⟩
        exact ⟨⟨e', List.mem_cons_of_mem _ he', rest'⟩, hdrift⟩
      | some m0 =>
        rw [walkList, hstep] at h
        rcases hrest : walkList hash cur rest with ⟨ms', err'⟩
        rw [hrest] at h
        simp at h
        rw [← h.1] at hm
        rcases List.mem_cons.mp hm with hm0 | hmrest
        · subst hm0
          rcases walkStep_ok_some hash cur e m hstep with
            ⟨hd, hx, v, hp, hcand, hnodrift⟩
          refine ⟨⟨e, List.mem_cons_self e rest, hd, hx, v, hp, hcand⟩, ?_⟩
          intro hver
          by_contra hne
          exact hnodrift ⟨hver, hne⟩
        · rcases ih ms' err' hrest m hmrest with ⟨⟨e', he', rest'⟩, hdrift⟩
          exact ⟨⟨e', List.mem_cons_of_mem _ he', rest'⟩, hdrift⟩


/-- A clean prefix of the walk contributes its candidates in front of
whatever the rest of the walk produces. -/
theorem walkList_append (hash : String → String) (cur : Migration) :
    ∀ (pre rest : List FSEntry), (walkList hash cur pre).2 = none →
    walkList hash cur (pre ++ rest) =
      ((walkList hash cur pre).1 ++ (walkList hash cur rest).1,
       (walkList hash cur rest).2) := by
  intro pre
  induction pre with
  | nil => intro rest _; simp [walkList]
  | cons e pre' ih =>
    intro rest hpre
    rcases hstep : walkStep hash cur e with herr | o
    · rw [walkList, hstep] at hpre
      simp at hpre
    · cases o with
      | none =>
        rw [walkList, hstep] at hpre
        rw [List.cons_append, walkList, hstep, walkList, hstep]
        exact ih rest hpre
      | some m0 =>
        rw [walkList, hstep] at hpre
        rw [List.cons_append, walkList, hstep, walkList, hstep]
        have h2 := ih rest (by simpa using hpre)
        simp [h2]

/-- A successful diff implies the persisted row was complete. -/
theorem diffFrom_ok_complete (hash : String → String) (cur : Migration)
    (entries : List FSEntry) (ms : List Migration)
    (h : diffMigrationsFrom hash cur entries = (ms, none)) :
    cur.Complete = true := by
  by_cases hc : cur.Complete = true
  · exact hc
  · rw [diffMigrationsFrom] at h
    simp [Bool.not_eq_true] at hc
    rw [if_pos hc] at h
    injection h with h1 h2
    cases h2

/-- When the persisted row is complete, the diff is exactly the walk. -/
theorem diffFrom_complete (hash : String → String) (cur : Migration)
    (entries : List FSEntry) (hc : cur.Complete = true) :
    diffMigrationsFrom hash cur entries = walkList hash cur entries := by
  rw [diffMigrationsFrom, if_neg]
  simp [hc]

/-- After a clean prefix, an entry on which the walk callback errors stops
`DiffMigrations` with that error and only the prefix's candidates. -/
theorem diffFrom_error_at (hash : String → String) (cur : Migration)
    (pre post : List FSEntry) (e : FSEntry) (err : DBError)
    (hc : cur.Complete = true)
    (hpre : (walkList hash cur pre).2 = none)
    (hstep : walkStep hash cur e = .error err) :
    diffMigrationsFrom hash cur (pre ++ e :: post) =
      ((walkList hash cur pre).1, some err) := by
  rw [diffFrom_complete hash cur _ hc, walkList_append hash cur pre (e :: post) hpre]
  rw [walkList, hstep]
  simp


/-- C2: for a complete persisted state, a discovered candidate whose version
equals the persisted version but whose hash differs makes `DiffMigrations`
fail with the drift error instead of returning that candidate as accepted:
the returned list stops at the clean prefix and the error is `driftMismatch`. -/
theorem diffMigrations_drift_fails (hash : String → String) (cur : Migration)
    (pre post : List FSEntry) (e : FSEntry) (v : Int)
    (hc : cur.Complete = true)
    (hpre : (walkList hash cur pre).2 = none)
    (hd : e.isDir = false) (hx : pathExt e.path = ".sql")
    (hp : parseInt10 (stemOf e) = some v)
    (hv : toUint64 v = cur.Version)
    (hh : hash e.content ≠ cur.Hash) :
    diffMigrationsFrom hash cur (pre ++ e :: post) =
      ((walkList hash cur pre).1, some DBError.driftMismatch) :=
  diffFrom_error_at hash cur pre post e _ hc hpre
    (walkStep_drift hash cur e v hd hx hp hv hh)

/-- Witness for the drift theorem: persisted `{Version=3, Hash="A"}` against
a discovered `3.sql` hashing to `"B"` fails with the drift error. -/
theorem diffMigrations_drift_fails_witness :
    diffMigrationsFrom (fun _ => "B")
      { ID := "1", File := "3.sql", Hash := "A", Version := 3, Complete := true, LastRun := 0 }
      [{ path := "3.sql", name := "3.sql", isDir := false, content := "zzz" }] =
      ([], some DBError.driftMismatch) :=
  diffMigrations_drift_fails (fun _ => "B") _ [] [] _ 3 rfl rfl rfl rfl rfl rfl
    (by decide)

/-- C4: an incomplete persisted row makes `DiffMigrations` fail immediately
with the unresolved error naming the stuck version and file; the result is
the same for every directory content (no discovery happens) and the
candidate list is empty. -/
theorem diffMigrations_unresolved_blocks (hash : String → String)
    (cur : Migration) (entries : List FSEntry) (hc : cur.Complete = false) :
    diffMigrations hash (some cur) entries =
      ([], some (DBError.unresolved cur.Version cur.File)) := by
  rw [diffMigrations]
  simp [getCurrentMigration, diffMigrationsFrom, hc]

/-- Witness for the unresolved-failure theorem at a stuck version 2. -/
theorem diffMigrations_unresolved_blocks_witness :
    diffMigrations (fun _ => "h")
      (some { ID := "1", File := "2.sql", Hash := "A", Version := 2, Complete := false, LastRun := 0 })
      [sampleE1] = ([], some (DBError.unresolved 2 "2.sql")) :=
  diffMigrations_unresolved_blocks _ _ _ rfl

/-- Every candidate returned by the diff carries
`Complete = (Version <= persisted Version)` (helper shared by several
results). -/
theorem diffFrom_flag (hash : String → String) (cur : Migration)
    (entries : List FSEntry) (ms : List Migration) (err : Option DBError)
    (h : diffMigrationsFrom hash cur entries = (ms, err)) :
    ∀ m ∈ ms, m.Complete = decide (m.Version ≤ cur.Version) := by
  intro m hm
  by_cases hc : cur.Complete = true
  · rw [diffFrom_complete hash cur entries hc] at h
    rcases walkList_mem hash cur entries ms err h m hm with
      ⟨⟨e, _, _, _, v, _, hcand⟩, _⟩
    subst hcand
    simp [candidate]
  · rw [diffMigrationsFrom] at h
    simp [Bool.not_eq_true] at hc
    rw [if_pos hc] at h
    injection h with h1 h2
    rw [← h1] at hm
    simp at hm

/-- C5: for every persisted state accepted by `DiffMigrations`, each
discovered candidate's `Complete` flag is true exactly when its `Version`
is at most the persisted `Version`, false exactly when it is greater. -/
theorem diffMigrations_complete_flag (hash : String → String) (cur : Migration)
    (entries : List FSEntry) (ms : List Migration) (err : Option DBError)
    (h : diffMigrationsFrom hash cur entries = (ms, err)) :
    ∀ m ∈ ms, m.Complete = decide (m.Version ≤ cur.Version) :=
  diffFrom_flag hash cur entries ms err h

/-- Witness for the complete-flag theorem: the pending candidate built from
`2.sql` against a persisted version 1. -/
theorem diffMigrations_complete_flag_witness :
    ({ ID := "", File := "2.sql", Hash := "c2", Version := 2, Complete := false, LastRun := 0 } : Migration).Complete =
      decide (({ ID := "", File := "2.sql", Hash := "c2", Version := 2, Complete := false, LastRun := 0 } : Migration).Version ≤ sampleCur.Version) :=
  diffMigrations_complete_flag (fun s => s) sampleCur [sampleE1, sampleE2]
    [{ ID := "", File := "1.sql", Hash := "c1", Version := 1, Complete := true, LastRun := 0 },
     { ID := "", File := "2.sql", Hash := "c2", Version := 2, Complete := false, LastRun := 0 }]
    none rfl _ (by decide)

/-- C7: on a fresh database `GetCurrentMigration` yields `NotFound`
(`sql.ErrNoRows`) and only then — any present row is returned as-is;
`Dial` handles the `NotFound` by inserting the bootstrap row
`{Version=0, Complete=true}` instead of propagating the error, and after
bootstrap `GetCurrentMigration` yields exactly that row. -/
theorem bootstrap_flow (now : Nat) :
    getCurrentMigration none = .error DBError.noRows ∧
    dialBootstrap now none = .ok (some (bootRow now)) ∧
    (∀ m : Migration, getCurrentMigration (some m) = .ok m) ∧
    getCurrentMigration (some (bootRow now)) = .ok (bootRow now) ∧
    (bootRow now).Version = 0 ∧ (bootRow now).Complete = true :=
  ⟨rfl, rfl, fun _ => rfl, rfl, rfl, rfl⟩

/-- C3 counterexample: with the tracked row at version 5 and `CompleteStep`
targeting version 7 in an environment whose UPDATE executes fine, the
update matches zero rows and reports success to the runner — refuting the
claim that it fails with an error when the row's state has moved. -/
theorem completeStep_moved_row_counterexample :
    completeStep oraOK
      { ID := "", File := "7.sql", Hash := "h7", Version := 7, Complete := false, LastRun := 0 }
      { ID := "1", File := "5.sql", Hash := "h5", Version := 5, Complete := true, LastRun := 0 } =
      .ok { ID := "1", File := "5.sql", Hash := "h5", Version := 5, Complete := true, LastRun := 0 } ∧
    (completeStepExec
      { ID := "1", File := "5.sql", Hash := "h5", Version := 5, Complete := true, LastRun := 0 } 7).2 = 0 :=
  ⟨rfl, rfl⟩

/-- C3 amended: when the tracked row's version differs from the version the
`CompleteStep` UPDATE targets, the version-match condition prevents the
stale overwrite (the row is unchanged) but the update matches zero rows and
returns no error; the runner, which discards the affected-row count,
proceeds as if the step succeeded. -/
theorem completeStep_moved_row_amended (ora : Oracle) (m row : Migration)
    (hc : ora.completeFails m = false) (hv : row.Version ≠ m.Version) :
    completeStep ora m row = .ok row ∧ (completeStepExec row m.Version).2 = 0 := by
  simp [completeStep, completeStepExec, hc, hv]

/-- Witness for the amended CompleteStep theorem: row at version 5, update
targeting version 3. -/
theorem completeStep_moved_row_amended_witness :
    completeStep oraOK wm3
      { ID := "1", File := "5.sql", Hash := "h5", Version := 5, Complete := true, LastRun := 0 } =
      .ok { ID := "1", File := "5.sql", Hash := "h5", Version := 5, Complete := true, LastRun := 0 } ∧
    (completeStepExec
      { ID := "1", File := "5.sql", Hash := "h5", Version := 5, Complete := true, LastRun := 0 }
      wm3.Version).2 = 0 :=
  completeStep_moved_row_amended oraOK wm3 _ rfl (by decide)

/-- C6 counterexample: the filename stem `-1` is not a base-10 unsigned
integer, yet `DiffMigrations` does not fail: `strconv.ParseInt` is a signed
parse, so `-1.sql` is accepted and its version wraps to `2^64 - 1` through
the `uint64` conversion. -/
theorem discovery_negative_stem_counterexample :
    stemOf { path := "migrations/-1.sql", name := "-1.sql", isDir := false, content := "x" } = "-1" ∧
    diffMigrationsFrom (fun _ => "hc")
      { ID := "1", File := "", Hash := "h0", Version := 0, Complete := true, LastRun := 0 }
      [{ path := "migrations/-1.sql", name := "-1.sql", isDir := false, content := "x" }] =
      ([{ ID := "", File := "migrations/-1.sql", Hash := "hc",
          Version := 18446744073709551615, Complete := false, LastRun := 0 }], none) :=
  ⟨rfl, rfl⟩

/-- C6 amended: the stem of a discovered `.sql` file must parse as a base-10
signed 64-bit integer: after a clean prefix, a stem that does not so parse
fails the diff with a parse error rather than being skipped; and every
accepted candidate's `Version` is its stem's parsed value converted through
`uint64` (reduced modulo 2^64), with `File` the discovered path. -/
theorem discovery_parse_signed :
    (∀ (hash : String → String) (cur : Migration) (pre post : List FSEntry)
       (e : FSEntry), cur.Complete = true → (walkList hash cur pre).2 = none →
      e.isDir = false → pathExt e.path = ".sql" → parseInt10 (stemOf e) = none →
      diffMigrationsFrom hash cur (pre ++ e :: post) =
        ((walkList hash cur pre).1, some (DBError.parseError (stemOf e)))) ∧
    (∀ (hash : String → String) (cur : Migration) (entries : List FSEntry)
       (ms : List Migration) (err : Option DBError) (m : Migration),
      diffMigrationsFrom hash cur entries = (ms, err) → m ∈ ms →
      ∃ e, e ∈ entries ∧ e.isDir = false ∧ pathExt e.path = ".sql" ∧
        ∃ v, parseInt10 (stemOf e) = some v ∧ m.Version = toUint64 v ∧
          m.File = e.path) := by
  constructor
  · intro hash cur pre post e hc hpre hd hx hp
    exact diffFrom_error_at hash cur pre post e _ hc hpre
      (walkStep_parse_error hash cur e hd hx hp)
  · intro hash cur entries ms err m h hm
    by_cases hc : cur.Complete = true
    · rw [diffFrom_complete hash cur entries hc] at h
      rcases walkList_mem hash cur entries ms err h m hm with
        ⟨⟨e, he, hd, hx, v, hp, hcand⟩, _⟩
      subst hcand
      exact ⟨e, he, hd, hx, v, hp, rfl, rfl⟩
    · rw [diffMigrationsFrom] at h
      simp [Bool.not_eq_true] at hc
      rw [if_pos hc] at h
      injection h with h1 h2
      rw [← h1] at hm
      simp at hm

/-- Witness for the amended discovery theorem: a stem `x` fails with a parse
error, and the candidate accepted from `2.sql` has version `uint64(2)`. -/
theorem discovery_parse_signed_witness :
    diffMigrationsFrom (fun _ => "h") (bootRow 0)
      [{ path := "x.sql", name := "x.sql", isDir := false, content := "c" }] =
      ([], some (DBError.parseError "x")) ∧
    (∃ e, e ∈ [sampleE2] ∧ e.isDir = false ∧ pathExt e.path = ".sql" ∧
      ∃ v, parseInt10 (stemOf e) = some v ∧
        ({ ID := "", File := "2.sql", Hash := "c2", Version := 2, Complete := false, LastRun := 0 } : Migration).Version = toUint64 v ∧
        ({ ID := "", File := "2.sql", Hash := "c2", Version := 2, Complete := false, LastRun := 0 } : Migration).File = e.path) :=
  ⟨discovery_parse_signed.1 (fun _ => "h") (bootRow 0) [] []
      { path := "x.sql", name := "x.sql", isDir := false, content := "c" }
      rfl rfl rfl rfl rfl,
   discovery_parse_signed.2 (fun s => s) sampleCur [sampleE2]
      [{ ID := "", File := "2.sql", Hash := "c2", Version := 2, Complete := false, LastRun := 0 }]
      none _ rfl (by decide)⟩


/-- Counting invariant of the runner loop: without an error every migration
is applied or skipped and nothing fails; with an error exactly one failure
was counted and at most the earlier migrations were applied or skipped. -/
theorem runLoop_counts (ora : Oracle) (now : Nat) :
    ∀ (migs : List Migration) (st : MigrationStatus) (row : Migration)
      (tr : List Event) (st' : MigrationStatus) (row' : Migration)
      (tr' : List Event) (err : Option RunErr),
    runLoop ora now migs st row tr = (st', row', tr', err) →
    (err = none → st'.Failed = st.Failed ∧
      st'.Applied + st'.Skipped = st.Applied + st.Skipped + migs.length) ∧
    (err ≠ none → st'.Failed = st.Failed + 1 ∧
      st'.Applied + st'.Skipped + 1 ≤ st.Applied + st.Skipped + migs.length) := by
  intro migs
  induction migs with
  | nil =>
    intro st row tr st' row' tr' err h
    rw [runLoop] at h
    injection h with h1 h2
    injection h2 with h2 h3
    injection h3 with h3 h4
    subst h1; subst h4
    exact ⟨fun _ => ⟨rfl, by simp⟩, fun hne => absurd rfl hne⟩
  | cons m rest ih =>
    intro st row tr st' row' tr' err h
    by_cases hm : m.Complete = true
    · rw [runLoop, if_pos hm] at h
      have hc := ih _ _ _ _ _ _ _ h
      constructor
      · intro he
        rcases hc.1 he with ⟨hf, hsum⟩
        simp only [List.length_cons] at *
        exact ⟨hf, by omega⟩
      · intro he
        rcases hc.2 he with ⟨hf, hsum⟩
        simp only [List.length_cons] at *
        exact ⟨hf, by omega⟩
    · have hm2 : m.Complete = false := by simpa using hm
      cases hb : ora.beginFails m with
      | true =>
        simp [runLoop, hm2, hb] at h
        obtain ⟨h1, _, _, h4⟩ := h
        constructor
        · intro he; rw [← h4] at he; cases he
        · intro _
          rw [← h1]
          constructor
          · rfl
          · dsimp only
            simp only [List.length_cons]
            omega
      | false =>
        cases he2 : ora.execFails m.File with
        | true =>
          simp [runLoop, hm2, hb, he2] at h
          obtain ⟨h1, _, _, h4⟩ := h
          constructor
          · intro he; rw [← h4] at he; cases he
          · intro _
            rw [← h1]
            constructor
            · rfl
            · dsimp only
              simp only [List.length_cons]
              omega
        | false =>
          cases hcf : ora.completeFails m with
          | true =>
            simp [runLoop, hm2, hb, he2, completeStep, hcf] at h
            obtain ⟨h1, _, _, h4⟩ := h
            constructor
            · intro he; rw [← h4] at he; cases he
            · intro _
              rw [← h1]
              constructor
              · rfl
              · dsimp only
                simp only [List.length_cons]
                omega
          | false =>
            rw [runLoop, if_neg hm] at h
            rw [if_neg (by simp [hb])] at h
            rw [if_neg (by simp [he2])] at h
            have hcs : completeStep ora m (beginStepRow row m now) =
                .ok (completeStepExec (beginStepRow row m now) m.Version).1 := by
              rw [completeStep, if_neg (by simp [hcf])]
            rw [hcs] at h
            have hc := ih _ _ _ _ _ _ _ h
            constructor
            · intro he
              rcases hc.1 he with ⟨hf, hsum⟩
              simp only [List.length_cons] at *
              exact ⟨hf, by omega⟩
            · intro he
              rcases hc.2 he with ⟨hf, hsum⟩
              simp only [List.length_cons] at *
              exact ⟨hf, by omega⟩

/-- The sorted list is a permutation of the input. -/
theorem sortMigrations_perm (l : List Migration) : (sortMigrations l).Perm l :=
  List.perm_insertionSort _ l

/-- The sorted list is nondecreasing in `Version`. -/
theorem sortMigrations_sorted (l : List Migration) :
    List.Sorted (fun a b : Migration => a.Version ≤ b.Version) (sortMigrations l) :=
  List.sorted_insertionSort _ l

/-- With pairwise-distinct versions the sorted list is strictly ascending. -/
theorem sortMigrations_strict (l : List Migration)
    (hd : List.Pairwise (fun a b : Migration => a.Version ≠ b.Version) l) :
    List.Pairwise (fun a b : Migration => a.Version < b.Version) (sortMigrations l) := by
  have hs := sortMigrations_sorted l
  have hd2 : List.Pairwise (fun a b : Migration => a.Version ≠ b.Version)
      (sortMigrations l) :=
    ((sortMigrations_perm l).pairwise_iff (fun h => Ne.symm h)).mpr hd
  exact (List.Pairwise.and hs hd2).imp (fun h => Nat.lt_of_le_of_ne h.1 h.2)

/-- Two inputs with the same migrations (and distinct versions) sort to the
same list. -/
theorem sortMigrations_eq_of_perm (l1 l2 : List Migration) (hperm : l1.Perm l2)
    (hd : List.Pairwise (fun a b : Migration => a.Version ≠ b.Version) l1) :
    sortMigrations l1 = sortMigrations l2 := by
  have hd2 : List.Pairwise (fun a b : Migration => a.Version ≠ b.Version) l2 :=
    (hperm.pairwise_iff (fun h => Ne.symm h)).mp hd
  have hp : (sortMigrations l1).Perm (sortMigrations l2) :=
    ((sortMigrations_perm l1).trans hperm).trans (sortMigrations_perm l2).symm
  exact List.eq_of_perm_of_sorted hp (sortMigrations_strict l1 hd)
    (sortMigrations_strict l2 hd2)

/-- C10: the status returned by `RunMigrations` counts at most one failure;
on a nil error nothing failed and every input migration was applied or
skipped; on a non-nil error exactly one failed and the counters cover at
most the input. -/
theorem runMigrations_status_invariant (ora : Oracle) (now : Nat)
    (row cur : Migration) (migs : List Migration) (st : MigrationStatus)
    (row' : Migration) (tr : List Event) (err : Option RunErr)
    (h : runMigrations ora now row cur migs = (st, row', tr, err)) :
    st.Failed ≤ 1 ∧
    (err = none → st.Failed = 0 ∧ st.Applied + st.Skipped = migs.length) ∧
    (err ≠ none → st.Failed = 1 ∧
      st.Applied + st.Skipped + st.Failed ≤ migs.length) := by
  rw [runMigrations] at h
  have hc := runLoop_counts ora now (sortMigrations migs) _ _ _ _ _ _ _ h
  have hlen : (sortMigrations migs).length = migs.length :=
    (sortMigrations_perm migs).length_eq
  rcases err with _ | e
  · rcases hc.1 rfl with ⟨hf, hsum⟩
    simp only at hf hsum
    refine ⟨by omega, fun _ => ⟨hf, by omega⟩, fun hne => absurd rfl hne⟩
  · rcases hc.2 (by simp) with ⟨hf, hsum⟩
    simp only at hf hsum
    refine ⟨by omega, fun he => (Option.some_ne_none e he).elim,
      fun _ => ⟨hf, by omega⟩⟩

/-- Witness for the status invariant: a clean one-migration run has no
failure and one applied. -/
theorem runMigrations_status_invariant_witness :
    ({ Applied := 1, Failed := 0, Skipped := 0, Latest := 1 } : MigrationStatus).Failed = 0 ∧
    ({ Applied := 1, Failed := 0, Skipped := 0, Latest := 1 } : MigrationStatus).Applied +
      ({ Applied := 1, Failed := 0, Skipped := 0, Latest := 1 } : MigrationStatus).Skipped =
      [wm1].length :=
  (runMigrations_status_invariant oraOK 0 (bootRow 0) (bootRow 0) [wm1]
    { Applied := 1, Failed := 0, Skipped := 0, Latest := 1 }
    { ID := "1", File := "1.sql", Hash := "h1", Version := 1, Complete := true, LastRun := 0 }
    [Event.beginStep 1 "h1" "1.sql" 0, Event.execFile "1.sql", Event.completeStep 1]
    none rfl).2.1 rfl

/-- C1: on a sorted list of three pending migrations where the second one's
SQL execution fails, the run applies the first, fails the second, skips
nothing, returns the error immediately, never attempts any operation for
the third (the trace stops at the second's SQL), and leaves the persisted
row incomplete at the second migration's identity. -/
theorem runMigrations_fail_fast (ora : Oracle) (now : Nat) (row cur : Migration)
    (m1 m2 m3 : Migration)
    (h1 : m1.Complete = false) (h2 : m2.Complete = false) (h3 : m3.Complete = false)
    (h12 : m1.Version < m2.Version) (h23 : m2.Version < m3.Version)
    (hb1 : ora.beginFails m1 = false) (he1 : ora.execFails m1.File = false)
    (hc1 : ora.completeFails m1 = false)
    (hb2 : ora.beginFails m2 = false) (he2 : ora.execFails m2.File = true) :
    runMigrations ora now row cur [m1, m2, m3] =
      ({ Applied := 1, Failed := 1, Skipped := 0, Latest := m1.Version },
       { ID := row.ID, File := m2.File, Hash := m2.Hash, Version := m2.Version,
         Complete := false, LastRun := now },
       [Event.beginStep m1.Version m1.Hash m1.File now, Event.execFile m1.File,
        Event.completeStep m1.Version,
        Event.beginStep m2.Version m2.Hash m2.File now, Event.execFile m2.File],
       some RunErr.execFailed) := by
  have hsorted : List.Sorted (fun a b : Migration => a.Version ≤ b.Version)
      [m1, m2, m3] := by
    simp [List.sorted_cons]
    omega
  have hsort : sortMigrations [m1, m2, m3] = [m1, m2, m3] := by
    rw [sortMigrations]
    exact List.Sorted.insertionSort_eq hsorted
  rw [runMigrations, hsort]
  simp [runLoop, h1, h2, hb1, he1, hb2, he2, completeStep, hc1,
    completeStepExec, beginStepRow]

/-- Witness for fail-fast: three sample pending migrations where only
`2.sql` fails to execute. -/
theorem runMigrations_fail_fast_witness :
    runMigrations oraFail2 7 sampleCur sampleCur [wm1, wm2, wm3] =
      ({ Applied := 1, Failed := 1, Skipped := 0, Latest := 1 },
       { ID := "1", File := "2.sql", Hash := "h2", Version := 2,
         Complete := false, LastRun := 7 },
       [Event.beginStep 1 "h1" "1.sql" 7, Event.execFile "1.sql",
        Event.completeStep 1,
        Event.beginStep 2 "h2" "2.sql" 7, Event.execFile "2.sql"],
       some RunErr.execFailed) :=
  runMigrations_fail_fast oraFail2 7 sampleCur sampleCur wm1 wm2 wm3
    rfl rfl rfl (by decide) (by decide) rfl rfl rfl rfl rfl

/-- C8: with pairwise-distinct versions the sort is strictly ascending in
`Version`, and `RunMigrations` gives identical results (status, row, trace,
error) on any permutation of its input. -/
theorem sort_strict_run_perm_invariant (l1 l2 : List Migration)
    (hperm : l1.Perm l2)
    (hd : List.Pairwise (fun a b : Migration => a.Version ≠ b.Version) l1) :
    List.Pairwise (fun a b : Migration => a.Version < b.Version)
      (sortMigrations l1) ∧
    ∀ (ora : Oracle) (now : Nat) (row cur : Migration),
      runMigrations ora now row cur l1 = runMigrations ora now row cur l2 := by
  refine ⟨sortMigrations_strict l1 hd, ?_⟩
  intro ora now row cur
  rw [runMigrations, runMigrations, sortMigrations_eq_of_perm l1 l2 hperm hd]

/-- Witness for order invariance: the two orders of the sample migrations
1 and 2 sort strictly and run identically. -/
theorem sort_strict_run_perm_invariant_witness :
    List.Pairwise (fun a b : Migration => a.Version < b.Version)
      (sortMigrations [wm2, wm1]) ∧
    runMigrations oraOK 5 (bootRow 0) (bootRow 0) [wm2, wm1] =
      runMigrations oraOK 5 (bootRow 0) (bootRow 0) [wm1, wm2] :=
  ⟨(sort_strict_run_perm_invariant [wm2, wm1] [wm1, wm2]
      (List.Perm.swap wm1 wm2 []) (by decide)).1,
   (sort_strict_run_perm_invariant [wm2, wm1] [wm1, wm2]
      (List.Perm.swap wm1 wm2 []) (by decide)).2 oraOK 5 (bootRow 0) (bootRow 0)⟩


/-- In a list with pairwise-distinct versions, a version determines the
element. -/
theorem mem_eq_of_version_eq (l : List Migration)
    (hd : List.Pairwise (fun a b : Migration => a.Version ≠ b.Version) l)
    (a b : Migration) (ha : a ∈ l) (hb : b ∈ l)
    (hv : a.Version = b.Version) : a = b := by
  induction l with
  | nil => cases ha
  | cons x xs ih =>
    rcases List.pairwise_cons.mp hd with ⟨hx, hxs⟩
    rcases List.mem_cons.mp ha with rfl | ha'
    · rcases List.mem_cons.mp hb with rfl | hb'
      · rfl
      · exact absurd hv (hx b hb')
    · rcases List.mem_cons.mp hb with rfl | hb'
      · exact absurd hv.symm (hx a ha')
      · exact ih hxs ha' hb'

/-- A run over already-complete migrations only counts skips: no database
operation is attempted, the row is untouched, and no error is returned. -/
theorem runLoop_allComplete (ora : Oracle) (now : Nat) :
    ∀ (migs : List Migration) (st : MigrationStatus) (row : Migration)
      (tr : List Event),
    (∀ m ∈ migs, m.Complete = true) →
    runLoop ora now migs st row tr =
      ({ st with Skipped := st.Skipped + migs.length }, row, tr, none) := by
  intro migs
  induction migs with
  | nil => intro st row tr _; rfl
  | cons m rest ih =>
    intro st row tr hall
    have hm : m.Complete = true := hall m (List.mem_cons_self m rest)
    rw [runLoop, if_pos hm,
      ih _ row tr (fun m' hm' => hall m' (List.mem_cons_of_mem _ hm'))]
    dsimp only
    rw [List.length_cons]
    have hadd : st.Skipped + 1 + rest.length = st.Skipped + (rest.length + 1) := by
      omega
    rw [hadd]

/-- Re-diffing the same directory against a different (complete, drift-free)
current row accepts the same candidates with reclassified `Complete` flags. -/
theorem walkList_remap (hash : String → String) (cur cur' : Migration) :
    ∀ (entries : List FSEntry) (ms : List Migration),
    walkList hash cur entries = (ms, none) →
    (∀ m ∈ ms, m.Version = cur'.Version → m.Hash = cur'.Hash) →
    walkList hash cur' entries =
      (ms.map (fun m => { m with Complete := decide (m.Version ≤ cur'.Version) }),
       none) := by
  intro entries
  induction entries with
  | nil =>
    intro ms h _
    rw [walkList] at h
    injection h with h1 h2
    rw [walkList, ← h1]
    simp
  | cons e rest ih =>
    intro ms h hdrift
    rcases hstep : walkStep hash cur e with herr | o
    · rw [walkList, hstep] at h
      simp at h
    · cases o with
      | none =>
        rw [walkList, hstep] at h
        rw [walkList, walkStep_ok_none hash cur cur' e hstep]
        exact ih ms h hdrift
      | some m0 =>
        rw [walkList, hstep] at h
        rcases hrest : walkList hash cur rest with ⟨ms', err'⟩
        rw [hrest] at h
        simp at h
        rcases h with ⟨h1, h2⟩
        rw [← h1] at hdrift
        rcases walkStep_ok_some hash cur e m0 hstep with
          ⟨hd, hx, v, hp, hcand, _⟩
        have hm0mem : m0 ∈ m0 :: ms' := List.mem_cons_self m0 ms'
        have hnod : ¬((candidate hash cur' e v).Version = cur'.Version ∧
            (candidate hash cur' e v).Hash ≠ cur'.Hash) := by
          intro hcontra
          have hv0 : m0.Version = cur'.Version := by
            rw [hcand]; exact hcontra.1
          have hh0 : m0.Hash = cur'.Hash := hdrift m0 hm0mem hv0
          apply hcontra.2
          rw [← hh0, hcand]
          rfl
        have hstep' : walkStep hash cur' e = .ok (some (candidate hash cur' e v)) := by
          rw [walkStep, if_neg (by simp [hd]), if_neg (by simp [hx]), hp]
          exact if_neg hnod
        rw [walkList, hstep',
          ih ms' (by rw [hrest, h2]) (fun m hm hv' => hdrift m (List.mem_cons_of_mem _ hm) hv')]
        rw [← h1, List.map_cons]
        have hcand' : candidate hash cur' e v =
            { m0 with Complete := decide (m0.Version ≤ cur'.Version) } := by
          rw [hcand]
          rfl
        rw [hcand']

/-- Postcondition of an error-free runner loop on a version-sorted,
version-distinct list whose `Complete` flags agree with the initial row:
the final row is complete, at least as new as every input migration, and is
either untouched or carries the identity of one pending input migration. -/
theorem runLoop_post (ora : Oracle) (now : Nat) :
    ∀ (migs : List Migration) (st : MigrationStatus) (row : Migration)
      (tr : List Event) (st' : MigrationStatus) (row' : Migration)
      (tr' : List Event),
    List.Pairwise (fun a b : Migration => a.Version ≤ b.Version) migs →
    List.Pairwise (fun a b : Migration => a.Version ≠ b.Version) migs →
    row.Complete = true →
    (∀ m ∈ migs, m.Complete = decide (m.Version ≤ row.Version)) →
    runLoop ora now migs st row tr = (st', row', tr', none) →
    row'.Complete = true ∧ row.Version ≤ row'.Version ∧
    (∀ m ∈ migs, m.Version ≤ row'.Version) ∧
    (row' = row ∨ ∃ m, m ∈ migs ∧ row'.Version = m.Version ∧
      row'.Hash = m.Hash ∧ row'.File = m.File ∧ row'.ID = row.ID) := by
  intro migs
  induction migs with
  | nil =>
    intro st row tr st' row' tr' _ _ hrowc _ h
    rw [runLoop] at h
    injection h with h1 h2
    injection h2 with h2 h3
    subst h2
    exact ⟨hrowc, Nat.le_refl _, by simp, Or.inl rfl⟩
  | cons m rest ih =>
    intro st row tr st' row' tr' hsort hdist hrowc hinv h
    rcases List.pairwise_cons.mp hsort with ⟨hsorthead, hsorttail⟩
    rcases List.pairwise_cons.mp hdist with ⟨hdisthead, hdisttail⟩
    by_cases hm : m.Complete = true
    · have hmle : m.Version ≤ row.Version := by
        have := hinv m (List.mem_cons_self m rest)
        rw [hm] at this
        exact of_decide_eq_true this.symm
      rw [runLoop, if_pos hm] at h
      rcases ih _ row tr st' row' tr' hsorttail hdisttail hrowc
          (fun m' hm' => hinv m' (List.mem_cons_of_mem _ hm')) h with
        ⟨hr1, hr2, hr3, hr4⟩
      refine ⟨hr1, hr2, ?_, ?_⟩
      · intro m'' hm''
        rcases List.mem_cons.mp hm'' with rfl | hm'''
        · exact Nat.le_trans hmle hr2
        · exact hr3 m'' hm'''
      · rcases hr4 with heq | ⟨m'', hmem, rest''⟩
        · exact Or.inl heq
        · exact Or.inr ⟨m'', List.mem_cons_of_mem _ hmem, rest''⟩
    · have hm2 : m.Complete = false := by simpa using hm
      have hgt : row.Version < m.Version := by
        have := hinv m (List.mem_cons_self m rest)
        rw [hm2] at this
        have hnot := of_decide_eq_false this.symm
        omega
      cases hb : ora.beginFails m with
      | true => simp [runLoop, hm2, hb] at h
      | false =>
        cases he2 : ora.execFails m.File with
        | true => simp [runLoop, hm2, hb, he2] at h
        | false =>
          cases hcf : ora.completeFails m with
          | true => simp [runLoop, hm2, hb, he2, completeStep, hcf] at h
          | false =>
            rw [runLoop, if_neg hm] at h
            rw [if_neg (by simp [hb])] at h
            rw [if_neg (by simp [he2])] at h
            have hcs : completeStep ora m (beginStepRow row m now) =
                .ok (completeStepExec (beginStepRow row m now) m.Version).1 := by
              rw [completeStep, if_neg (by simp [hcf])]
            rw [hcs] at h
            have hrow2 : (completeStepExec (beginStepRow row m now) m.Version).1 =
                { ID := row.ID, File := m.File, Hash := m.Hash,
                  Version := m.Version, Complete := true, LastRun := now } := by
              simp [completeStepExec, beginStepRow]
            rw [hrow2] at h
            have hinv' : ∀ m' ∈ rest, m'.Complete =
                decide (m'.Version ≤
                  ({ ID := row.ID, File := m.File, Hash := m.Hash,
                     Version := m.Version, Complete := true,
                     LastRun := now } : Migration).Version) := by
              intro m' hm'
              have hold := hinv m' (List.mem_cons_of_mem _ hm')
              have hle' : m.Version ≤ m'.Version := hsorthead m' hm'
              have hne' : m.Version ≠ m'.Version := hdisthead m' hm'
              dsimp only
              cases hc' : m'.Complete with
              | true =>
                rw [hc'] at hold
                have : m'.Version ≤ row.Version := of_decide_eq_true hold.symm
                omega
              | false =>
                rw [hc'] at hold
                symm
                rw [decide_eq_false_iff_not]
                omega
            rcases ih _ _ _ st' row' tr' hsorttail hdisttail rfl hinv' h with
              ⟨hr1, hr2, hr3, hr4⟩
            refine ⟨hr1, ?_, ?_, ?_⟩
            · exact Nat.le_trans (Nat.le_of_lt hgt) hr2
            · intro m'' hm''
              rcases List.mem_cons.mp hm'' with rfl | hm'''
              · exact hr2
              · exact hr3 m'' hm'''
            · rcases hr4 with heq | ⟨m'', hmem, hv'', hh'', hf'', hid''⟩
              · refine Or.inr ⟨m, List.mem_cons_self m rest, ?_, ?_, ?_, ?_⟩ <;>
                  rw [heq]
              · exact Or.inr ⟨m'', List.mem_cons_of_mem _ hmem, hv'', hh'', hf'', hid''⟩


/-- C9: after a first full pipeline pass (diff, then an error-free run) over
a directory, re-running the pipeline over the same directory diffs every
candidate as `Complete`, and the second run reports `Applied = 0` and
`Skipped` equal to the number of discovered migrations, with no database
operation attempted (empty trace) and the persisted row unchanged. -/
theorem second_run_all_skipped (hash : String → String) (ora ora2 : Oracle)
    (now now2 : Nat) (row0 : Migration) (entries : List FSEntry)
    (ms : List Migration) (st1 : MigrationStatus) (row1 : Migration)
    (tr1 : List Event)
    (hdist : List.Pairwise (fun a b : Migration => a.Version ≠ b.Version) ms)
    (hdiff : diffMigrationsFrom hash row0 entries = (ms, none))
    (hrun : runMigrations ora now row0 row0 ms = (st1, row1, tr1, none)) :
    ∃ ms2 : List Migration,
      diffMigrationsFrom hash row1 entries = (ms2, none) ∧
      (∀ m ∈ ms2, m.Complete = true) ∧ ms2.length = ms.length ∧
      runMigrations ora2 now2 row1 row1 ms2 =
        ({ Applied := 0, Failed := 0, Skipped := ms2.length,
           Latest := row1.Version }, row1, [], none) := by
  have hc0 : row0.Complete = true := diffFrom_ok_complete hash row0 entries ms hdiff
  have hwalk : walkList hash row0 entries = (ms, none) := by
    rw [← diffFrom_complete hash row0 entries hc0]
    exact hdiff
  have hflag : ∀ m ∈ ms, m.Complete = decide (m.Version ≤ row0.Version) :=
    diffFrom_flag hash row0 entries ms none hdiff
  have hnodrift0 : ∀ m ∈ ms, m.Version = row0.Version → m.Hash = row0.Hash :=
    fun m hm => (walkList_mem hash row0 entries ms none hwalk m hm).2
  rw [runMigrations] at hrun
  have hsortperm := sortMigrations_perm ms
  have hdistS : List.Pairwise (fun a b : Migration => a.Version ≠ b.Version)
      (sortMigrations ms) :=
    (hsortperm.pairwise_iff (fun h => Ne.symm h)).mpr hdist
  have hinvS : ∀ m ∈ sortMigrations ms,
      m.Complete = decide (m.Version ≤ row0.Version) :=
    fun m hm => hflag m (hsortperm.mem_iff.mp hm)
  rcases runLoop_post ora now (sortMigrations ms) _ row0 [] st1 row1 tr1
      (sortMigrations_sorted ms) hdistS hc0 hinvS hrun with
    ⟨h1c, _, h1all, h1row⟩
  have hallle : ∀ m ∈ ms, m.Version ≤ row1.Version :=
    fun m hm => h1all m (hsortperm.mem_iff.mpr hm)
  have hnodrift1 : ∀ m ∈ ms, m.Version = row1.Version → m.Hash = row1.Hash := by
    rcases h1row with heq | ⟨mstar, hmem, hv, hh, _, _⟩
    · rw [heq]
      exact hnodrift0
    · intro m hm hv'
      have hmstar : mstar ∈ ms := hsortperm.mem_iff.mp hmem
      have hmeq : m = mstar :=
        mem_eq_of_version_eq ms hdist m mstar hm hmstar (by rw [hv', hv])
      rw [hmeq, ← hh]
  have hremap := walkList_remap hash row0 row1 entries ms hwalk hnodrift1
  refine ⟨ms.map (fun m => { m with Complete := decide (m.Version ≤ row1.Version) }),
    ?_, ?_, ?_, ?_⟩
  · rw [diffFrom_complete hash row1 entries h1c]
    exact hremap
  · intro m2 hm2
    rcases List.mem_map.mp hm2 with ⟨m, hm, rfl⟩
    simp only [decide_eq_true_eq]
    exact hallle m hm
  · exact List.length_map ms _
  · rw [runMigrations]
    have hall2 : ∀ m ∈ sortMigrations
        (ms.map (fun m => { m with Complete := decide (m.Version ≤ row1.Version) })),
        m.Complete = true := by
      intro m hm
      have hmm := (sortMigrations_perm _).mem_iff.mp hm
      rcases List.mem_map.mp hmm with ⟨m0, hm0, rfl⟩
      simp only [decide_eq_true_eq]
      exact hallle m0 hm0
    rw [runLoop_allComplete ora2 now2 _ _ row1 [] hall2]
    have hlen2 : (sortMigrations
        (ms.map (fun m => { m with Complete := decide (m.Version ≤ row1.Version) }))).length =
        (ms.map (fun m => { m with Complete := decide (m.Version ≤ row1.Version) })).length :=
      (sortMigrations_perm _).length_eq
    dsimp only
    rw [hlen2, Nat.zero_add]

/-- Witness for the idempotence theorem: sample directory `1.sql`, `2.sql`
at persisted version 1; the first run applies `2.sql`, the second skips
both candidates. -/
theorem second_run_all_skipped_witness :
    ∃ ms2 : List Migration,
      diffMigrationsFrom (fun s => s) row1W [sampleE1, sampleE2] = (ms2, none) ∧
      (∀ m ∈ ms2, m.Complete = true) ∧ ms2.length = msW.length ∧
      runMigrations oraOK 3 row1W row1W ms2 =
        ({ Applied := 0, Failed := 0, Skipped := ms2.length,
           Latest := row1W.Version }, row1W, [], none) :=
  second_run_all_skipped (fun s => s) oraOK oraOK 0 3 sampleCur
    [sampleE1, sampleE2] msW
    { Applied := 1, Failed := 0, Skipped := 1, Latest := 2 } row1W
    [Event.beginStep 2 "c2" "2.sql" 0, Event.execFile "2.sql",
     Event.completeStep 2]
    (by decide) rfl rfl


end Pgdb
